import Mathlib

/-!
Verification of the LookML token-stream parser (src/lkml/parser.py).

The parser is a backtracking recursive-descent parser over a finite token
stream.  We embed it shallowly: the mutable parser object (token list,
cursor index, backtracking mark) becomes an explicit state record, Python
exceptions become an error type threaded through an Except result, and the
unbounded while loops and the mutual recursion between the expression and
block matchers are driven by a fuel parameter.  Fuel exhaustion is an
artifact of the embedding and is unreachable once the fuel dominates the
stream length, because every loop iteration and every recursive call
strictly advances the cursor.
-/

namespace Lkml

/-- Modelled from the spec: the token kinds of the external lexer module
(lkml.tokens is not part of the given sources).  Literal and QuotedLiteral
carry a string payload; all other kinds carry none. -/
inductive Token where
  | streamStart
  | streamEnd
  | literal (payload : String)
  | quotedLiteral (payload : String)
  | value
  | blockStart
  | blockEnd
  | listStart
  | listEnd
  | comma
  | sqlEnd
deriving DecidableEq, Repr

/-- Modelled from the spec: the Python classes of the token hierarchy, as
compared by the type membership test in Parser.check. -/
inductive TokenType where
  | streamStart
  | streamEnd
  | literal
  | quotedLiteral
  | value
  | blockStart
  | blockEnd
  | listStart
  | listEnd
  | comma
  | sqlEnd
deriving DecidableEq, Repr

/-- The Python type of a token object. -/
def Token.type : Token → TokenType
  | .streamStart => .streamStart
  | .streamEnd => .streamEnd
  | .literal _ => .literal
  | .quotedLiteral _ => .quotedLiteral
  | .value => .value
  | .blockStart => .blockStart
  | .blockEnd => .blockEnd
  | .listStart => .listStart
  | .listEnd => .listEnd
  | .comma => .comma
  | .sqlEnd => .sqlEnd

/-- Modelled from the spec: the value attribute of a token.  Only Literal and
QuotedLiteral carry a payload, and the parser reads the attribute only after
a successful check for one of those two kinds, so the placeholder returned
for the other kinds is never observed. -/
def Token.tokenValue : Token → String
  | .literal v => v
  | .quotedLiteral v => v
  | _ => ""

/-- The Python exceptions the parser can raise, plus a fuel marker that is an
artifact of the embedding of the recursion.  syntaxError is the
Exception raised by the expression dispatch loop, typeError is the TypeError
raised by the constructor, indexError is the IndexError raised by reading
past the end of the token list, and unboundLocal is the UnboundLocalError
raised by parse_block when it reads its never-assigned local variable. -/
inductive PErr where
  | syntaxError
  | typeError
  | indexError
  | unboundLocal
  | fuelExhausted
deriving DecidableEq, Repr

/-- The mutable state of the Parser object: the token list, the cursor index,
and the single shared backtracking mark (initialized to Python None). -/
structure ParserState where
  tokens : List Token
  index : Nat
  mark : Option Nat
deriving DecidableEq, Repr

/-- Result of one matcher invocation: a value, the soft no-match signal
(Python None), or a raised exception, together with the state of the parser
object when control leaves the matcher. -/
abbrev PRes (α : Type) := Except PErr (Option α) × ParserState

/-- Parser.set_mark: record the current index. -/
def set_mark (s : ParserState) : ParserState :=
  { s with mark := some s.index }

/-- Parser.jump_to_mark: restore the cursor to the saved mark.  The wrapper
always runs set_mark before any jump, so the mark is set whenever this runs
and the getD fallback is never reached. -/
def jump_to_mark (s : ParserState) : ParserState :=
  { s with index := s.mark.getD s.index }

/-- Parser.peek with the default length of one: read the token under the
cursor, raising IndexError past the end of the stream. -/
def peek (s : ParserState) : Except PErr Token :=
  match s.tokens.get? s.index with
  | some t => Except.ok t
  | none => Except.error PErr.indexError

/-- Parser.advance with the default length of one.  The debug log reads
tokens[index] before moving, so advancing at the end of the stream raises
IndexError. -/
def advance (s : ParserState) : Except PErr ParserState :=
  match s.tokens.get? s.index with
  | some _ => Except.ok { s with index := s.index + 1 }
  | none => Except.error PErr.indexError

/-- Parser.consume: peek then advance, returning the token. -/
def consume (s : ParserState) : Except PErr (Token × ParserState) :=
  match peek s with
  | Except.error e => Except.error e
  | Except.ok t =>
    match advance s with
    | Except.error e => Except.error e
    | Except.ok s1 => Except.ok (t, s1)

/-- Parser.consume_token_value: consume and return the value attribute. -/
def consume_token_value (s : ParserState) : Except PErr (String × ParserState) :=
  match consume s with
  | Except.error e => Except.error e
  | Except.ok (t, s1) => Except.ok (t.tokenValue, s1)

/-- Parser.check: test whether the type of the token under the cursor is one
of the given token types.  The Python code first validates that every given
type is a Token subclass; in the embedding every TokenType is one, so only
the membership test remains.  The peek inside the logging call raises
IndexError at the end of the stream. -/
def check (s : ParserState) (token_types : List TokenType) : Except PErr Bool :=
  match peek s with
  | Except.error e => Except.error e
  | Except.ok t => Except.ok (token_types.contains t.type)

/-- Parser.backtrack_if_none: set the mark, run the matcher, and on the soft
no-match signal jump back to the mark (which a nested wrapped matcher may
have moved in the meantime, since the mark is a single shared field). -/
def backtrack_if_none {α : Type} (method : ParserState → PRes α) (s : ParserState) : PRes α :=
  match method (set_mark s) with
  | (Except.ok none, s1) => (Except.ok none, jump_to_mark s1)
  | (r, s1) => (r, s1)

/-- One parsed construct, keyed by a string.  Python represents each as a
one-entry dict; the block dict carries an expression and an optional name. -/
inductive Entry where
  | block (key : String) (name : Option String) (expression : List Entry)
  | pair (key : String) (value : String)
  | list (key : String) (values : List String)
deriving Repr

/-- The key of an entry (the single key of the Python dict). -/
def Entry.keyOf : Entry → String
  | .block k _ _ => k
  | .pair k _ => k
  | .list k _ => k

/-- Body of Parser.parse_key: require a Literal token, consume its value,
then require and consume a Value token. -/
def parse_key_body (s : ParserState) : PRes String :=
  match check s [TokenType.literal] with
  | Except.error e => (Except.error e, s)
  | Except.ok false => (Except.ok none, s)
  | Except.ok true =>
    match consume_token_value s with
    | Except.error e => (Except.error e, s)
    | Except.ok (v, s1) =>
      match check s1 [TokenType.value] with
      | Except.error e => (Except.error e, s1)
      | Except.ok false => (Except.ok none, s1)
      | Except.ok true =>
        match advance s1 with
        | Except.error e => (Except.error e, s1)
        | Except.ok s2 => (Except.ok (some v), s2)

/-- Parser.parse_key, wrapped by backtrack_if_none. -/
def parse_key : ParserState → PRes String :=
  backtrack_if_none parse_key_body

/-- Body of Parser.parse_value: a quoted literal, or a literal optionally
followed by a consumed-and-discarded SqlEnd token. -/
def parse_value_body (s : ParserState) : PRes String :=
  match check s [TokenType.quotedLiteral] with
  | Except.error e => (Except.error e, s)
  | Except.ok true =>
    match consume_token_value s with
    | Except.error e => (Except.error e, s)
    | Except.ok (v, s1) => (Except.ok (some v), s1)
  | Except.ok false =>
    match check s [TokenType.literal] with
    | Except.error e => (Except.error e, s)
    | Except.ok false => (Except.ok none, s)
    | Except.ok true =>
      match consume_token_value s with
      | Except.error e => (Except.error e, s)
      | Except.ok (v, s1) =>
        match check s1 [TokenType.sqlEnd] with
        | Except.error e => (Except.error e, s1)
        | Except.ok false => (Except.ok (some v), s1)
        | Except.ok true =>
          match advance s1 with
          | Except.error e => (Except.error e, s1)
          | Except.ok s2 => (Except.ok (some v), s2)

/-- Parser.parse_value, wrapped by backtrack_if_none. -/
def parse_value : ParserState → PRes String :=
  backtrack_if_none parse_value_body

/-- The while loop of Parser.parse_csv: while the cursor is not at ListEnd,
require a Comma, then require another Literal or QuotedLiteral value. -/
def parse_csv_loop : Nat → List String → ParserState → PRes (List String)
  | 0, _, s => (Except.error PErr.fuelExhausted, s)
  | fuel + 1, values, s =>
    match check s [TokenType.listEnd] with
    | Except.error e => (Except.error e, s)
    | Except.ok true => (Except.ok (some values), s)
    | Except.ok false =>
      match check s [TokenType.comma] with
      | Except.error e => (Except.error e, s)
      | Except.ok false => (Except.ok none, s)
      | Except.ok true =>
        match advance s with
        | Except.error e => (Except.error e, s)
        | Except.ok s1 =>
          match check s1 [TokenType.literal] with
          | Except.error e => (Except.error e, s1)
          | Except.ok true =>
            match consume_token_value s1 with
            | Except.error e => (Except.error e, s1)
            | Except.ok (v, s2) => parse_csv_loop fuel (values ++ [v]) s2
          | Except.ok false =>
            match check s1 [TokenType.quotedLiteral] with
            | Except.error e => (Except.error e, s1)
            | Except.ok true =>
              match consume_token_value s1 with
              | Except.error e => (Except.error e, s1)
              | Except.ok (v, s2) => parse_csv_loop fuel (values ++ [v]) s2
            | Except.ok false => (Except.ok none, s1)

/-- Body of Parser.parse_csv: require a first Literal or QuotedLiteral value,
then enter the comma loop. -/
def parse_csv_body (fuel : Nat) (s : ParserState) : PRes (List String) :=
  match check s [TokenType.literal] with
  | Except.error e => (Except.error e, s)
  | Except.ok true =>
    match consume_token_value s with
    | Except.error e => (Except.error e, s)
    | Except.ok (v, s1) => parse_csv_loop fuel [v] s1
  | Except.ok false =>
    match check s [TokenType.quotedLiteral] with
    | Except.error e => (Except.error e, s)
    | Except.ok true =>
      match consume_token_value s with
      | Except.error e => (Except.error e, s)
      | Except.ok (v, s1) => parse_csv_loop fuel [v] s1
    | Except.ok false => (Except.ok none, s)

/-- Parser.parse_csv, wrapped by backtrack_if_none. -/
def parse_csv (fuel : Nat) : ParserState → PRes (List String) :=
  backtrack_if_none (parse_csv_body fuel)

/-- Body of Parser.parse_pair: a key followed by a value. -/
def parse_pair_body (s : ParserState) : PRes Entry :=
  match parse_key s with
  | (Except.error e, s1) => (Except.error e, s1)
  | (Except.ok none, s1) => (Except.ok none, s1)
  | (Except.ok (some key), s1) =>
    match parse_value s1 with
    | (Except.error e, s2) => (Except.error e, s2)
    | (Except.ok none, s2) => (Except.ok none, s2)
    | (Except.ok (some v), s2) => (Except.ok (some (Entry.pair key v)), s2)

/-- Parser.parse_pair, wrapped by backtrack_if_none. -/
def parse_pair : ParserState → PRes Entry :=
  backtrack_if_none parse_pair_body

/-- The optional bare literal consumed by the block and list matchers:
if a Literal token is under the cursor, consume it and return its value;
otherwise leave the state unchanged and return none, which models the Python
local variable staying unassigned. -/
def parse_optional_literal (s : ParserState) : Except PErr (Option String × ParserState) :=
  match check s [TokenType.literal] with
  | Except.error e => Except.error e
  | Except.ok true =>
    match consume_token_value s with
    | Except.error e => Except.error e
    | Except.ok (v, s1) => Except.ok (some v, s1)
  | Except.ok false => Except.ok (none, s)

/-- Body of Parser.parse_list: a key, an optional bare literal that is parsed
but discarded, a ListStart, a csv, and a ListEnd. -/
def parse_list_body (fuel : Nat) (s : ParserState) : PRes Entry :=
  match parse_key s with
  | (Except.error e, s1) => (Except.error e, s1)
  | (Except.ok none, s1) => (Except.ok none, s1)
  | (Except.ok (some key), s1) =>
    match parse_optional_literal s1 with
    | Except.error e => (Except.error e, s1)
    | Except.ok (_, s2) =>
      match check s2 [TokenType.listStart] with
      | Except.error e => (Except.error e, s2)
      | Except.ok false => (Except.ok none, s2)
      | Except.ok true =>
        match advance s2 with
        | Except.error e => (Except.error e, s2)
        | Except.ok s3 =>
          match parse_csv fuel s3 with
          | (Except.error e, s4) => (Except.error e, s4)
          | (Except.ok none, s4) => (Except.ok none, s4)
          | (Except.ok (some csv), s4) =>
            match check s4 [TokenType.listEnd] with
            | Except.error e => (Except.error e, s4)
            | Except.ok false => (Except.ok none, s4)
            | Except.ok true =>
              match advance s4 with
              | Except.error e => (Except.error e, s4)
              | Except.ok s5 => (Except.ok (some (Entry.list key csv)), s5)

/-- Parser.parse_list, wrapped by backtrack_if_none. -/
def parse_list (fuel : Nat) : ParserState → PRes Entry :=
  backtrack_if_none (parse_list_body fuel)

mutual

/-- Parser.parse_expression, with the backtrack_if_none wrapper written out
so that the mutual recursion is structural in the fuel. -/
def parse_expression : Nat → ParserState → PRes (List Entry)
  | 0, s => (Except.error PErr.fuelExhausted, s)
  | fuel + 1, s =>
    match parse_expression_body fuel (set_mark s) with
    | (Except.ok none, s1) => (Except.ok none, jump_to_mark s1)
    | (r, s1) => (r, s1)

/-- Body of Parser.parse_expression: optionally consume a leading StreamStart
token, then run the dispatch loop with an empty accumulator. -/
def parse_expression_body : Nat → ParserState → PRes (List Entry)
  | 0, s => (Except.error PErr.fuelExhausted, s)
  | fuel + 1, s =>
    match check s [TokenType.streamStart] with
    | Except.error e => (Except.error e, s)
    | Except.ok true =>
      match advance s with
      | Except.error e => (Except.error e, s)
      | Except.ok s1 => parse_expression_loop fuel [] s1
    | Except.ok false => parse_expression_loop fuel [] s

/-- The while loop of Parser.parse_expression: while the cursor is at neither
StreamEnd nor BlockEnd, try block, then pair, then list, appending the first
match; if none of the three matches, raise the syntax error. -/
def parse_expression_loop : Nat → List Entry → ParserState → PRes (List Entry)
  | 0, _, s => (Except.error PErr.fuelExhausted, s)
  | fuel + 1, expression, s =>
    match check s [TokenType.streamEnd, TokenType.blockEnd] with
    | Except.error e => (Except.error e, s)
    | Except.ok true => (Except.ok (some expression), s)
    | Except.ok false =>
      match parse_block fuel s with
      | (Except.error e, s1) => (Except.error e, s1)
      | (Except.ok (some b), s1) => parse_expression_loop fuel (expression ++ [b]) s1
      | (Except.ok none, s1) =>
        match parse_pair s1 with
        | (Except.error e, s2) => (Except.error e, s2)
        | (Except.ok (some p), s2) => parse_expression_loop fuel (expression ++ [p]) s2
        | (Except.ok none, s2) =>
          match parse_list fuel s2 with
          | (Except.error e, s3) => (Except.error e, s3)
          | (Except.ok (some l), s3) => parse_expression_loop fuel (expression ++ [l]) s3
          | (Except.ok none, s3) => (Except.error PErr.syntaxError, s3)

/-- Parser.parse_block, with the backtrack_if_none wrapper written out so
that the mutual recursion is structural in the fuel. -/
def parse_block : Nat → ParserState → PRes Entry
  | 0, s => (Except.error PErr.fuelExhausted, s)
  | fuel + 1, s =>
    match parse_block_body fuel (set_mark s) with
    | (Except.ok none, s1) => (Except.ok none, jump_to_mark s1)
    | (r, s1) => (r, s1)

/-- Body of Parser.parse_block: a key, an optional bare literal kept as the
block name, a BlockStart, a recursive expression, and a BlockEnd.  The final
truthiness test of the name local raises UnboundLocalError when no literal
was consumed, because the Python local was never assigned. -/
def parse_block_body : Nat → ParserState → PRes Entry
  | 0, s => (Except.error PErr.fuelExhausted, s)
  | fuel + 1, s =>
    match parse_key s with
    | (Except.error e, s1) => (Except.error e, s1)
    | (Except.ok none, s1) => (Except.ok none, s1)
    | (Except.ok (some key), s1) =>
      match parse_optional_literal s1 with
      | Except.error e => (Except.error e, s1)
      | Except.ok (lit, s2) =>
        match check s2 [TokenType.blockStart] with
        | Except.error e => (Except.error e, s2)
        | Except.ok false => (Except.ok none, s2)
        | Except.ok true =>
          match advance s2 with
          | Except.error e => (Except.error e, s2)
          | Except.ok s3 =>
            match parse_expression fuel s3 with
            | (Except.error e, s4) => (Except.error e, s4)
            | (Except.ok none, s4) => (Except.ok none, s4)
            | (Except.ok (some expr), s4) =>
              match check s4 [TokenType.blockEnd] with
              | Except.error e => (Except.error e, s4)
              | Except.ok false => (Except.ok none, s4)
              | Except.ok true =>
                match advance s4 with
                | Except.error e => (Except.error e, s4)
                | Except.ok s5 =>
                  match lit with
                  | none => (Except.error PErr.unboundLocal, s5)
                  | some l =>
                    if l = "" then (Except.ok (some (Entry.block key none expr)), s5)
                    else (Except.ok (some (Entry.block key (some l) expr)), s5)

end

/-- Parser.parse: delegate to parse_expression. -/
def parse (fuel : Nat) (s : ParserState) : PRes (List Entry) :=
  parse_expression fuel s

/-- The state of a freshly constructed parser: cursor at zero, mark at
Python None. -/
def initState (ts : List Token) : ParserState :=
  { tokens := ts, index := 0, mark := none }

/-- Modelled from the spec: a Python value handed to the Parser constructor,
either an instance of the external Token hierarchy or some other object. -/
inductive PyVal where
  | token (t : Token)
  | nonToken (typeName : String)
deriving DecidableEq, Repr

/-- Whether a constructor argument element is a Token instance. -/
def PyVal.isToken : PyVal → Bool
  | .token _ => true
  | .nonToken _ => false

/-- The Token instances of an all-token argument sequence. -/
def tokensOf (stream : List PyVal) : List Token :=
  stream.filterMap fun v =>
    match v with
    | PyVal.token t => some t
    | PyVal.nonToken _ => none

/-- The constructor loop of Parser.init: walk the argument sequence in order
and raise TypeError at the first element that is not a Token instance;
otherwise store the sequence as the token stream. -/
def parserInit : List PyVal → Except PErr (List Token)
  | [] => Except.ok []
  | v :: rest =>
    match v with
    | PyVal.token t =>
      match parserInit rest with
      | Except.error e => Except.error e
      | Except.ok ts => Except.ok (t :: ts)
    | PyVal.nonToken _ => Except.error PErr.typeError

/-! ## State invariants

InBounds is the cursor invariant of the spec: the index, and any saved mark,
never exceed the stream length.  LowBound n records that the index and any
saved mark are at least n; it is the monotonicity fact that a matcher never
moves the cursor to the left of the position where the enclosing wrapped
matcher started.  Pres bundles both together with preservation of the token
list, which no operation ever mutates. -/

def InBounds (s : ParserState) : Prop :=
  s.index ≤ s.tokens.length ∧ ∀ m, s.mark = some m → m ≤ s.tokens.length

def LowBound (n : Nat) (s : ParserState) : Prop :=
  n ≤ s.index ∧ ∀ m, s.mark = some m → n ≤ m

def Pres (s s' : ParserState) : Prop :=
  s'.tokens = s.tokens ∧ (InBounds s → InBounds s') ∧
    ∀ n, LowBound n s → LowBound n s'

theorem Pres.refl (s : ParserState) : Pres s s :=
  ⟨rfl, fun h => h, fun _ h => h⟩

theorem Pres.trans {s1 s2 s3 : ParserState} (h1 : Pres s1 s2) (h2 : Pres s2 s3) :
    Pres s1 s3 :=
  ⟨h2.1.trans h1.1, fun h => h2.2.1 (h1.2.1 h), fun n h => h2.2.2 n (h1.2.2 n h)⟩

theorem pres_set_mark (s : ParserState) : Pres s (set_mark s) := by
  refine ⟨rfl, fun h => ⟨h.1, ?_⟩, fun n h => ⟨h.1, ?_⟩⟩
  · intro m hm
    simp only [set_mark] at hm
    cases hm
    exact h.1
  · intro m hm
    simp only [set_mark] at hm
    cases hm
    exact h.1

theorem pres_jump_to_mark (s : ParserState) : Pres s (jump_to_mark s) := by
  refine ⟨rfl, fun h => ⟨?_, h.2⟩, fun n h => ⟨?_, h.2⟩⟩
  · cases hm : s.mark with
    | none => simpa [jump_to_mark, hm] using h.1
    | some m => simpa [jump_to_mark, hm] using h.2 m hm
  · cases hm : s.mark with
    | none => simpa [jump_to_mark, hm] using h.1
    | some m => simpa [jump_to_mark, hm] using h.2 m hm

theorem advance_ok {s s1 : ParserState} (h : advance s = Except.ok s1) :
    s1 = { s with index := s.index + 1 } ∧ s.index < s.tokens.length := by
  unfold advance at h
  split at h
  next t ht =>
    cases h
    exact ⟨rfl, List.get?_eq_some.mp ht |>.1⟩
  next => cases h

theorem pres_advance {s s1 : ParserState} (h : advance s = Except.ok s1) :
    Pres s s1 := by
  obtain ⟨h1, h2⟩ := advance_ok h
  subst h1
  exact ⟨rfl, fun h => ⟨h2, h.2⟩, fun n h => ⟨Nat.le_succ_of_le h.1, h.2⟩⟩

theorem peek_ok {s : ParserState} {t : Token} (h : peek s = Except.ok t) :
    s.tokens.get? s.index = some t := by
  unfold peek at h
  split at h
  next t' ht =>
    cases h
    exact ht
  next => cases h

theorem consume_ok {s : ParserState} {t : Token} {s1 : ParserState}
    (h : consume s = Except.ok (t, s1)) :
    s1 = { s with index := s.index + 1 } ∧ s.tokens.get? s.index = some t := by
  unfold consume at h
  split at h
  next => cases h
  next t' hp =>
    split at h
    next => cases h
    next s2 ha =>
      cases h
      exact ⟨(advance_ok ha).1, peek_ok hp⟩

theorem consume_token_value_ok {s : ParserState} {v : String} {s1 : ParserState}
    (h : consume_token_value s = Except.ok (v, s1)) :
    s1 = { s with index := s.index + 1 } ∧
      ∃ t, s.tokens.get? s.index = some t ∧ v = t.tokenValue := by
  unfold consume_token_value at h
  split at h
  next => cases h
  next t s2 hc =>
    cases h
    obtain ⟨h1, h2⟩ := consume_ok hc
    exact ⟨h1, t, h2, rfl⟩

theorem pres_consume_token_value {s : ParserState} {v : String} {s1 : ParserState}
    (h : consume_token_value s = Except.ok (v, s1)) : Pres s s1 := by
  obtain ⟨h1, t, h2, -⟩ := consume_token_value_ok h
  subst h1
  have hlt : s.index < s.tokens.length := (List.get?_eq_some.mp h2).1
  exact ⟨rfl, fun h => ⟨hlt, h.2⟩, fun n h => ⟨Nat.le_succ_of_le h.1, h.2⟩⟩

theorem check_ok {s : ParserState} {tys : List TokenType} {b : Bool}
    (h : check s tys = Except.ok b) :
    ∃ t, s.tokens.get? s.index = some t ∧ b = tys.contains t.type := by
  unfold check at h
  split at h
  next => cases h
  next t hp =>
    cases h
    exact ⟨t, peek_ok hp, rfl⟩

theorem parse_optional_literal_ok {s : ParserState} {r : Option String} {s1 : ParserState}
    (h : parse_optional_literal s = Except.ok (r, s1)) :
    Pres s s1 ∧ (s1 = s ∨ s1 = { s with index := s.index + 1 }) := by
  unfold parse_optional_literal at h
  split at h
  next => cases h
  next hck =>
    split at h
    next => cases h
    next v s2 hc =>
      cases h
      exact ⟨pres_consume_token_value hc, Or.inr (consume_token_value_ok hc).1⟩
  next hck =>
    cases h
    exact ⟨Pres.refl s, Or.inl rfl⟩

theorem pres_backtrack {α : Type} {body : ParserState → PRes α}
    (hb : ∀ s, Pres s (body s).2) (s : ParserState) :
    Pres s (backtrack_if_none body s).2 := by
  unfold backtrack_if_none
  have h1 := pres_set_mark s
  have h2 := hb (set_mark s)
  split
  next s1 heq =>
    rw [heq] at h2
    exact (h1.trans h2).trans (pres_jump_to_mark s1)
  next r s1 hne heq =>
    rw [heq] at h2
    exact h1.trans h2

theorem pres_parse_key_body (s : ParserState) : Pres s (parse_key_body s).2 := by
  unfold parse_key_body
  split
  next => exact Pres.refl s
  next => exact Pres.refl s
  next =>
    split
    next => exact Pres.refl s
    next v s1 h2 =>
      have p1 := pres_consume_token_value h2
      split
      next => exact p1
      next => exact p1
      next =>
        split
        next => exact p1
        next s2 h3 => exact p1.trans (pres_advance h3)

theorem pres_parse_key (s : ParserState) : Pres s (parse_key s).2 :=
  pres_backtrack pres_parse_key_body s

theorem pres_parse_value_body (s : ParserState) : Pres s (parse_value_body s).2 := by
  unfold parse_value_body
  split
  next => exact Pres.refl s
  next =>
    split
    next => exact Pres.refl s
    next v s1 h2 => exact pres_consume_token_value h2
  next =>
    split
    next => exact Pres.refl s
    next => exact Pres.refl s
    next =>
      split
      next => exact Pres.refl s
      next v s1 h2 =>
        have p1 := pres_consume_token_value h2
        split
        next => exact p1
        next => exact p1
        next =>
          split
          next => exact p1
          next s2 h3 => exact p1.trans (pres_advance h3)

theorem pres_parse_value (s : ParserState) : Pres s (parse_value s).2 :=
  pres_backtrack pres_parse_value_body s

theorem pres_parse_csv_loop (fuel : Nat) :
    ∀ (values : List String) (s : ParserState), Pres s (parse_csv_loop fuel values s).2 := by
  induction fuel with
  | zero => intro values s; exact Pres.refl s
  | succ fuel ih =>
    intro values s
    unfold parse_csv_loop
    split
    next => exact Pres.refl s
    next => exact Pres.refl s
    next =>
      split
      next => exact Pres.refl s
      next => exact Pres.refl s
      next =>
        split
        next => exact Pres.refl s
        next s1 h1 =>
          have p1 := pres_advance h1
          split
          next => exact p1
          next =>
            split
            next => exact p1
            next v s2 h2 =>
              exact (p1.trans (pres_consume_token_value h2)).trans (ih _ _)
          next =>
            split
            next => exact p1
            next =>
              split
              next => exact p1
              next v s2 h2 =>
                exact (p1.trans (pres_consume_token_value h2)).trans (ih _ _)
            next => exact p1

theorem pres_parse_csv_body (fuel : Nat) (s : ParserState) :
    Pres s (parse_csv_body fuel s).2 := by
  unfold parse_csv_body
  split
  next => exact Pres.refl s
  next =>
    split
    next => exact Pres.refl s
    next v s1 h1 =>
      exact (pres_consume_token_value h1).trans (pres_parse_csv_loop fuel _ _)
  next =>
    split
    next => exact Pres.refl s
    next =>
      split
      next => exact Pres.refl s
      next v s1 h1 =>
        exact (pres_consume_token_value h1).trans (pres_parse_csv_loop fuel _ _)
    next => exact Pres.refl s

theorem pres_parse_csv (fuel : Nat) (s : ParserState) : Pres s (parse_csv fuel s).2 :=
  pres_backtrack (pres_parse_csv_body fuel) s

theorem pres_parse_pair_body (s : ParserState) : Pres s (parse_pair_body s).2 := by
  unfold parse_pair_body
  have pk := pres_parse_key s
  split
  next e s1 heq => rw [heq] at pk; exact pk
  next s1 heq => rw [heq] at pk; exact pk
  next key s1 heq =>
    rw [heq] at pk
    have pv := pres_parse_value s1
    split
    next e s2 heq2 => rw [heq2] at pv; exact pk.trans pv
    next s2 heq2 => rw [heq2] at pv; exact pk.trans pv
    next v s2 heq2 => rw [heq2] at pv; exact pk.trans pv

theorem pres_parse_pair (s : ParserState) : Pres s (parse_pair s).2 :=
  pres_backtrack pres_parse_pair_body s

theorem pres_parse_list_body (fuel : Nat) (s : ParserState) :
    Pres s (parse_list_body fuel s).2 := by
  unfold parse_list_body
  have pk := pres_parse_key s
  split
  next e s1 heq => rw [heq] at pk; exact pk
  next s1 heq => rw [heq] at pk; exact pk
  next key s1 heq =>
    rw [heq] at pk
    split
    next => exact pk
    next lit s2 h2 =>
      have p2 := pk.trans (parse_optional_literal_ok h2).1
      split
      next => exact p2
      next => exact p2
      next =>
        split
        next => exact p2
        next s3 h3 =>
          have p3 := p2.trans (pres_advance h3)
          have pc := pres_parse_csv fuel s3
          split
          next e s4 heq4 => rw [heq4] at pc; exact p3.trans pc
          next s4 heq4 => rw [heq4] at pc; exact p3.trans pc
          next csv s4 heq4 =>
            rw [heq4] at pc
            have p4 := p3.trans pc
            split
            next => exact p4
            next => exact p4
            next =>
              split
              next => exact p4
              next s5 h5 => exact p4.trans (pres_advance h5)

theorem pres_parse_list (fuel : Nat) (s : ParserState) : Pres s (parse_list fuel s).2 :=
  pres_backtrack (pres_parse_list_body fuel) s

theorem parse_expression_succ (fuel : Nat) (s : ParserState) :
    parse_expression (fuel + 1) s = backtrack_if_none (parse_expression_body fuel) s := by
  unfold parse_expression backtrack_if_none
  cases h : parse_expression_body fuel (set_mark s) with
  | mk r s1 => rcases r with e | _ | a <;> rfl

theorem parse_block_succ (fuel : Nat) (s : ParserState) :
    parse_block (fuel + 1) s = backtrack_if_none (parse_block_body fuel) s := by
  unfold parse_block backtrack_if_none
  cases h : parse_block_body fuel (set_mark s) with
  | mk r s1 => rcases r with e | _ | a <;> rfl

theorem pres_mutual (fuel : Nat) :
    (∀ s, Pres s (parse_expression fuel s).2) ∧
    (∀ s, Pres s (parse_expression_body fuel s).2) ∧
    (∀ acc s, Pres s (parse_expression_loop fuel acc s).2) ∧
    (∀ s, Pres s (parse_block fuel s).2) ∧
    (∀ s, Pres s (parse_block_body fuel s).2) := by
  induction fuel with
  | zero =>
    exact ⟨fun s => Pres.refl s, fun s => Pres.refl s, fun _ s => Pres.refl s,
      fun s => Pres.refl s, fun s => Pres.refl s⟩
  | succ fuel ih =>
    obtain ⟨ihe, iheb, ihl, ihb, ihbb⟩ := ih
    have hloop : ∀ acc s, Pres s (parse_expression_loop (fuel + 1) acc s).2 := by
      intro acc s
      unfold parse_expression_loop
      split
      next => exact Pres.refl s
      next => exact Pres.refl s
      next =>
        have pb := ihb s
        split
        next e s1 heq => rw [heq] at pb; exact pb
        next b s1 heq => rw [heq] at pb; exact pb.trans (ihl _ _)
        next s1 heq =>
          rw [heq] at pb
          have pp := pres_parse_pair s1
          split
          next e s2 heq2 => rw [heq2] at pp; exact pb.trans pp
          next p s2 heq2 => rw [heq2] at pp; exact (pb.trans pp).trans (ihl _ _)
          next s2 heq2 =>
            rw [heq2] at pp
            have pl := pres_parse_list fuel s2
            split
            next e s3 heq3 => rw [heq3] at pl; exact (pb.trans pp).trans pl
            next l s3 heq3 =>
              rw [heq3] at pl
              exact ((pb.trans pp).trans pl).trans (ihl _ _)
            next s3 heq3 => rw [heq3] at pl; exact (pb.trans pp).trans pl
    have hbody : ∀ s, Pres s (parse_expression_body (fuel + 1) s).2 := by
      intro s
      unfold parse_expression_body
      split
      next => exact Pres.refl s
      next =>
        split
        next => exact Pres.refl s
        next s1 h1 => exact (pres_advance h1).trans (ihl _ _)
      next => exact ihl _ _
    have hblockbody : ∀ s, Pres s (parse_block_body (fuel + 1) s).2 := by
      intro s
      unfold parse_block_body
      have pk := pres_parse_key s
      split
      next e s1 heq => rw [heq] at pk; exact pk
      next s1 heq => rw [heq] at pk; exact pk
      next key s1 heq =>
        rw [heq] at pk
        split
        next => exact pk
        next lit s2 h2 =>
          have p2 := pk.trans (parse_optional_literal_ok h2).1
          split
          next => exact p2
          next => exact p2
          next =>
            split
            next => exact p2
            next s3 h3 =>
              have p3 := p2.trans (pres_advance h3)
              have pe := ihe s3
              split
              next e s4 heq4 => rw [heq4] at pe; exact p3.trans pe
              next s4 heq4 => rw [heq4] at pe; exact p3.trans pe
              next expr s4 heq4 =>
                rw [heq4] at pe
                have p4 := p3.trans pe
                split
                next => exact p4
                next => exact p4
                next =>
                  split
                  next => exact p4
                  next s5 h5 =>
                    have p5 := p4.trans (pres_advance h5)
                    split
                    next => exact p5
                    next l =>
                      split
                      next => exact p5
                      next => exact p5
    refine ⟨?_, hbody, hloop, ?_, hblockbody⟩
    · intro s
      rw [parse_expression_succ]
      exact pres_backtrack iheb s
    · intro s
      rw [parse_block_succ]
      exact pres_backtrack ihbb s

/-! ## Success characterizations

For the order-preservation claim we track, for each matcher, what a
successful match says about the token under the entry position and how far
the cursor has moved. -/

theorem backtrack_some {α : Type} {body : ParserState → PRes α} {s : ParserState}
    {a : α} {s1 : ParserState}
    (h : backtrack_if_none body s = (Except.ok (some a), s1)) :
    body (set_mark s) = (Except.ok (some a), s1) := by
  unfold backtrack_if_none at h
  split at h
  next s2 heq => simp at h
  next r s2 hne heq => exact heq.trans h

theorem lowBound_set_mark (s : ParserState) : LowBound s.index (set_mark s) := by
  refine ⟨le_refl _, fun m hm => ?_⟩
  simp only [set_mark] at hm
  cases hm
  exact le_refl _

theorem backtrack_index_mono {α : Type} {body : ParserState → PRes α}
    (hb : ∀ s, Pres s (body s).2) (s : ParserState) :
    s.index ≤ (backtrack_if_none body s).2.index := by
  have h1 := (hb (set_mark s)).2.2 s.index (lowBound_set_mark s)
  unfold backtrack_if_none
  split
  next s1 heq =>
    rw [heq] at h1
    cases hm : s1.mark with
    | none => simpa [jump_to_mark, hm] using h1.1
    | some m => simpa [jump_to_mark, hm] using h1.2 m hm
  next r s1 hne heq =>
    rw [heq] at h1
    exact h1.1

theorem parse_key_index_mono (s : ParserState) : s.index ≤ (parse_key s).2.index :=
  backtrack_index_mono pres_parse_key_body s

theorem parse_value_index_mono (s : ParserState) : s.index ≤ (parse_value s).2.index :=
  backtrack_index_mono pres_parse_value_body s

theorem parse_csv_index_mono (fuel : Nat) (s : ParserState) :
    s.index ≤ (parse_csv fuel s).2.index :=
  backtrack_index_mono (pres_parse_csv_body fuel) s

theorem parse_pair_index_mono (s : ParserState) : s.index ≤ (parse_pair s).2.index :=
  backtrack_index_mono pres_parse_pair_body s

theorem parse_list_index_mono (fuel : Nat) (s : ParserState) :
    s.index ≤ (parse_list fuel s).2.index :=
  backtrack_index_mono (pres_parse_list_body fuel) s

theorem parse_expression_index_mono (fuel : Nat) (s : ParserState) :
    s.index ≤ (parse_expression fuel s).2.index := by
  cases fuel with
  | zero => exact le_refl _
  | succ fuel =>
    rw [parse_expression_succ]
    exact backtrack_index_mono (pres_mutual fuel).2.1 s

theorem parse_block_index_mono (fuel : Nat) (s : ParserState) :
    s.index ≤ (parse_block fuel s).2.index := by
  cases fuel with
  | zero => exact le_refl _
  | succ fuel =>
    rw [parse_block_succ]
    exact backtrack_index_mono (pres_mutual fuel).2.2.2.2 s

theorem type_eq_literal {t : Token} (h : t.type = TokenType.literal) :
    ∃ p, t = Token.literal p ∧ t.tokenValue = p := by
  cases t
  case literal v => exact ⟨v, rfl, rfl⟩
  all_goals simp [Token.type] at h

theorem check_literal_true {s : ParserState} (h : check s [TokenType.literal] = Except.ok true) :
    ∃ p, s.tokens.get? s.index = some (Token.literal p) := by
  obtain ⟨t, ht, hb⟩ := check_ok h
  have : t.type = TokenType.literal := by
    cases t <;> simp [Token.type] at hb ⊢
  obtain ⟨p, hp, -⟩ := type_eq_literal this
  exact ⟨p, hp ▸ ht⟩

theorem parse_key_body_some {s : ParserState} {k : String} {s1 : ParserState}
    (h : parse_key_body s = (Except.ok (some k), s1)) :
    s.tokens.get? s.index = some (Token.literal k) ∧
      s1.tokens = s.tokens ∧ s1.index = s.index + 2 ∧ s1.mark = s.mark := by
  unfold parse_key_body at h
  split at h
  next => simp at h
  next => simp at h
  next hck =>
    split at h
    next => simp at h
    next v s2 hv =>
      split at h
      next => simp at h
      next => simp at h
      next =>
        split at h
        next => simp at h
        next s3 ha =>
          have hvk : v = k := by simpa using congrArg Prod.fst h
          have hs31 : s3 = s1 := by simpa using congrArg Prod.snd h
          subst hvk
          subst hs31
          obtain ⟨p, hp⟩ := check_literal_true hck
          obtain ⟨hs2, t, hts, htv⟩ := consume_token_value_ok hv
          obtain ⟨hs3, -⟩ := advance_ok ha
          have htp : t = Token.literal p := Option.some.inj (hts.symm.trans hp)
          subst htp
          subst htv
          subst hs2
          subst hs3
          exact ⟨by simpa [Token.tokenValue] using hp, rfl, rfl, rfl⟩

theorem parse_key_some {s : ParserState} {k : String} {s1 : ParserState}
    (h : parse_key s = (Except.ok (some k), s1)) :
    s.tokens.get? s.index = some (Token.literal k) ∧
      s1.tokens = s.tokens ∧ s1.index = s.index + 2 := by
  have hb := backtrack_some (h := h)
  obtain ⟨h1, h2, h3, -⟩ := parse_key_body_some hb
  exact ⟨h1, h2, h3⟩

/-! ## Document order

DocKeys ts lo es states that the entries es carry keys that appear, in
order, as Literal tokens of the stream ts at strictly increasing positions,
the first one at or after position lo, and that the same holds recursively
inside every nested block document.  This is the order-preservation
property: the entries of a parsed document sit in the stream in exactly the
order of their key tokens, with repeated keys kept as repeated entries. -/

mutual

inductive DocKeys : List Token → Nat → List Entry → Prop where
  | nil {ts : List Token} {lo : Nat} : DocKeys ts lo []
  | cons {ts : List Token} {lo : Nat} (p : Nat) {e : Entry} {es : List Entry} :
      lo ≤ p → ts.get? p = some (Token.literal e.keyOf) →
      EntryKeys ts p e → DocKeys ts (p + 1) es → DocKeys ts lo (e :: es)

inductive EntryKeys : List Token → Nat → Entry → Prop where
  | block {ts : List Token} {p : Nat} {k : String} {n : Option String} {exp : List Entry} :
      DocKeys ts (p + 1) exp → EntryKeys ts p (Entry.block k n exp)
  | pair {ts : List Token} {p : Nat} {k v : String} : EntryKeys ts p (Entry.pair k v)
  | list {ts : List Token} {p : Nat} {k : String} {vs : List String} :
      EntryKeys ts p (Entry.list k vs)

end

theorem DocKeys.mono {ts : List Token} {lo lo' : Nat} {es : List Entry}
    (h : DocKeys ts lo es) (hle : lo' ≤ lo) : DocKeys ts lo' es := by
  cases h with
  | nil => exact DocKeys.nil
  | cons p h1 h2 h3 h4 => exact DocKeys.cons p (hle.trans h1) h2 h3 h4

theorem parse_value_body_some {s : ParserState} {v : String} {s1 : ParserState}
    (h : parse_value_body s = (Except.ok (some v), s1)) :
    s1.tokens = s.tokens ∧ s.index + 1 ≤ s1.index := by
  unfold parse_value_body at h
  split at h
  next => simp at h
  next =>
    split at h
    next => simp at h
    next v2 s2 hv =>
      injection h with h1 h2
      obtain ⟨hs, -⟩ := consume_token_value_ok hv
      subst h2
      rw [hs]
      exact ⟨rfl, le_refl _⟩
  next =>
    split at h
    next => simp at h
    next => simp at h
    next =>
      split at h
      next => simp at h
      next v2 s2 hv =>
        obtain ⟨hs, -⟩ := consume_token_value_ok hv
        split at h
        next => simp at h
        next =>
          injection h with h1 h2
          subst h2
          rw [hs]
          exact ⟨rfl, le_refl _⟩
        next =>
          split at h
          next => simp at h
          next s3 ha =>
            injection h with h1 h2
            subst h2
            obtain ⟨hs3, -⟩ := advance_ok ha
            have e3 : s3.index = s2.index + 1 := by rw [hs3]
            have e3t : s3.tokens = s2.tokens := by rw [hs3]
            have e2 : s2.index = s.index + 1 := by rw [hs]
            have e2t : s2.tokens = s.tokens := by rw [hs]
            rw [e3t, e2t]
            exact ⟨rfl, by omega⟩

theorem parse_value_some {s : ParserState} {v : String} {s1 : ParserState}
    (h : parse_value s = (Except.ok (some v), s1)) :
    s1.tokens = s.tokens ∧ s.index + 1 ≤ s1.index := by
  have hb := backtrack_some (h := h)
  obtain ⟨h1, h2⟩ := @parse_value_body_some (set_mark s) v s1 hb
  exact ⟨h1, h2⟩

theorem parse_pair_some {s : ParserState} {e : Entry} {s1 : ParserState}
    (h : parse_pair s = (Except.ok (some e), s1)) :
    s.tokens.get? s.index = some (Token.literal e.keyOf) ∧
      EntryKeys s.tokens s.index e ∧ s.index + 1 ≤ s1.index ∧ s1.tokens = s.tokens := by
  have hb := backtrack_some (h := h)
  unfold parse_pair_body at hb
  split at hb
  next => simp at hb
  next => simp at hb
  next key s2 hk =>
    split at hb
    next => simp at hb
    next => simp at hb
    next v s3 hv =>
      injection hb with h1 h2
      injection h1 with h1
      injection h1 with h1
      subst h1
      subst h2
      obtain ⟨hk1, hk2, hk3⟩ := @parse_key_some (set_mark s) key s2 hk
      obtain ⟨hv1, hv2⟩ := @parse_value_some s2 v s3 hv
      simp only [set_mark] at hk1 hk2 hk3
      refine ⟨hk1, EntryKeys.pair, ?_, by rw [hv1, hk2]⟩
      omega

theorem parse_list_some {fuel : Nat} {s : ParserState} {e : Entry} {s1 : ParserState}
    (h : parse_list fuel s = (Except.ok (some e), s1)) :
    s.tokens.get? s.index = some (Token.literal e.keyOf) ∧
      EntryKeys s.tokens s.index e ∧ s.index + 1 ≤ s1.index ∧ s1.tokens = s.tokens := by
  have hb := backtrack_some (h := h)
  unfold parse_list_body at hb
  split at hb
  next => simp at hb
  next => simp at hb
  next key s2 hk =>
    split at hb
    next => simp at hb
    next lit s3 hol =>
      split at hb
      next => simp at hb
      next => simp at hb
      next =>
        split at hb
        next => simp at hb
        next s4 ha =>
          split at hb
          next => simp at hb
          next => simp at hb
          next csv s5 hcsv =>
            split at hb
            next => simp at hb
            next => simp at hb
            next =>
              split at hb
              next => simp at hb
              next s6 ha2 =>
                injection hb with h1 h2
                injection h1 with h1
                injection h1 with h1
                subst h1
                subst h2
                obtain ⟨hk1, hk2, hk3⟩ := @parse_key_some (set_mark s) key s2 hk
                simp only [set_mark] at hk1 hk2 hk3
                obtain ⟨pol, hol2⟩ := @parse_optional_literal_ok s2 lit s3 hol
                have h3t : s3.tokens = s2.tokens := pol.1
                have h3i : s2.index ≤ s3.index ∧ s3.index ≤ s2.index + 1 := by
                  rcases hol2 with h3 | h3
                  · rw [h3]
                    exact ⟨le_refl _, Nat.le_succ _⟩
                  · rw [h3]
                    exact ⟨Nat.le_succ _, le_refl _⟩
                obtain ⟨ha1, -⟩ := advance_ok ha
                have h4i : s4.index = s3.index + 1 := by rw [ha1]
                have h4t : s4.tokens = s3.tokens := by rw [ha1]
                have hcm : s4.index ≤ s5.index := by
                  have hx := parse_csv_index_mono fuel s4
                  rw [hcsv] at hx
                  exact hx
                have hct : s5.tokens = s4.tokens := by
                  have hx := (pres_parse_csv fuel s4).1
                  rw [hcsv] at hx
                  exact hx
                obtain ⟨ha2s, -⟩ := advance_ok ha2
                have h6i : s6.index = s5.index + 1 := by rw [ha2s]
                have h6t : s6.tokens = s5.tokens := by rw [ha2s]
                refine ⟨hk1, EntryKeys.list, ?_, ?_⟩
                · omega
                · rw [h6t, hct, h4t, h3t, hk2]

theorem keys_mutual (fuel : Nat) :
    (∀ s res s1, parse_expression fuel s = (Except.ok (some res), s1) →
        DocKeys s.tokens s.index res) ∧
    (∀ s res s1, parse_expression_body fuel s = (Except.ok (some res), s1) →
        DocKeys s.tokens s.index res) ∧
    (∀ acc s res s1, parse_expression_loop fuel acc s = (Except.ok (some res), s1) →
        ∃ es, res = acc ++ es ∧ DocKeys s.tokens s.index es) ∧
    (∀ s e s1, parse_block fuel s = (Except.ok (some e), s1) →
        s.tokens.get? s.index = some (Token.literal e.keyOf) ∧
          EntryKeys s.tokens s.index e ∧ s.index + 1 ≤ s1.index) ∧
    (∀ s e s1, parse_block_body fuel s = (Except.ok (some e), s1) →
        s.tokens.get? s.index = some (Token.literal e.keyOf) ∧
          EntryKeys s.tokens s.index e ∧ s.index + 1 ≤ s1.index) := by
  induction fuel with
  | zero =>
    refine ⟨?_, ?_, ?_, ?_, ?_⟩
    · intro s res s1 h
      simp [parse_expression] at h
    · intro s res s1 h
      simp [parse_expression_body] at h
    · intro acc s res s1 h
      simp [parse_expression_loop] at h
    · intro s e s1 h
      simp [parse_block] at h
    · intro s e s1 h
      simp [parse_block_body] at h
  | succ fuel ih =>
    obtain ⟨ihe, iheb, ihl, ihb, ihbb⟩ := ih
    have hloop : ∀ acc s res s1,
        parse_expression_loop (fuel + 1) acc s = (Except.ok (some res), s1) →
        ∃ es, res = acc ++ es ∧ DocKeys s.tokens s.index es := by
      intro acc s res s1 h
      unfold parse_expression_loop at h
      split at h
      next => simp at h
      next =>
        injection h with h1 h2
        injection h1 with h1
        injection h1 with h1
        subst h1
        exact ⟨[], by simp, DocKeys.nil⟩
      next =>
        split at h
        next => simp at h
        next b sB hblk =>
          obtain ⟨es2, he2, hd2⟩ := ihl (acc ++ [b]) sB res s1 h
          obtain ⟨hb1, hb2, hb3⟩ := ihb s b sB hblk
          have hBt : sB.tokens = s.tokens := by
            have hx := (pres_mutual fuel).2.2.2.1 s
            rw [hblk] at hx
            exact hx.1
          rw [hBt] at hd2
          refine ⟨b :: es2, by rw [he2]; simp, ?_⟩
          exact DocKeys.cons s.index (le_refl _) hb1 hb2 (hd2.mono hb3)
        next sB hblk =>
          have hBt : sB.tokens = s.tokens := by
            have hx := (pres_mutual fuel).2.2.2.1 s
            rw [hblk] at hx
            exact hx.1
          have hBi : s.index ≤ sB.index := by
            have hx := parse_block_index_mono fuel s
            rw [hblk] at hx
            exact hx
          split at h
          next => simp at h
          next p sP hp =>
            obtain ⟨es2, he2, hd2⟩ := ihl (acc ++ [p]) sP res s1 h
            obtain ⟨hp1, hp2, hp3, hp4⟩ := parse_pair_some (h := hp)
            rw [hp4, hBt] at hd2
            rw [hBt] at hp1 hp2
            refine ⟨p :: es2, by rw [he2]; simp, ?_⟩
            exact DocKeys.cons sB.index hBi hp1 hp2 (hd2.mono hp3)
          next sP hp =>
            have hPt : sP.tokens = sB.tokens := by
              have hx := pres_parse_pair sB
              rw [hp] at hx
              exact hx.1
            have hPi : sB.index ≤ sP.index := by
              have hx := parse_pair_index_mono sB
              rw [hp] at hx
              exact hx
            split at h
            next => simp at h
            next l sL hl =>
              obtain ⟨es2, he2, hd2⟩ := ihl (acc ++ [l]) sL res s1 h
              obtain ⟨hl1, hl2, hl3, hl4⟩ := parse_list_some (h := hl)
              rw [hl4, hPt, hBt] at hd2
              rw [hPt, hBt] at hl1 hl2
              refine ⟨l :: es2, by rw [he2]; simp, ?_⟩
              exact DocKeys.cons sP.index (hBi.trans hPi) hl1 hl2 (hd2.mono hl3)
            next => simp at h
    have hbody : ∀ s res s1,
        parse_expression_body (fuel + 1) s = (Except.ok (some res), s1) →
        DocKeys s.tokens s.index res := by
      intro s res s1 h
      unfold parse_expression_body at h
      split at h
      next => simp at h
      next =>
        split at h
        next => simp at h
        next s2 ha =>
          obtain ⟨es, he, hd⟩ := ihl [] s2 res s1 h
          simp at he
          subst he
          obtain ⟨ha1, -⟩ := advance_ok ha
          rw [ha1] at hd
          exact hd.mono (Nat.le_succ _)
      next =>
        obtain ⟨es, he, hd⟩ := ihl [] s res s1 h
        simp at he
        subst he
        exact hd
    have hexpr : ∀ s res s1,
        parse_expression (fuel + 1) s = (Except.ok (some res), s1) →
        DocKeys s.tokens s.index res := by
      intro s res s1 h
      rw [parse_expression_succ] at h
      have hb := backtrack_some (h := h)
      exact iheb (set_mark s) res s1 hb
    have hblockbody : ∀ s e s1,
        parse_block_body (fuel + 1) s = (Except.ok (some e), s1) →
        s.tokens.get? s.index = some (Token.literal e.keyOf) ∧
          EntryKeys s.tokens s.index e ∧ s.index + 1 ≤ s1.index := by
      intro s e s1 h
      unfold parse_block_body at h
      split at h
      next => simp at h
      next => simp at h
      next key s2 hk =>
        split at h
        next => simp at h
        next lit s3 hol =>
          split at h
          next => simp at h
          next => simp at h
          next =>
            split at h
            next => simp at h
            next s4 ha =>
              split at h
              next => simp at h
              next => simp at h
              next expr s5 hexp =>
                split at h
                next => simp at h
                next => simp at h
                next =>
                  split at h
                  next => simp at h
                  next s6 ha2 =>
                    split at h
                    next => simp at h
                    next l =>
                      obtain ⟨hk1, hk2, hk3⟩ := @parse_key_some (set_mark s) key s2 hk
                      simp only [set_mark] at hk1 hk2 hk3
                      obtain ⟨pol, hol2⟩ := @parse_optional_literal_ok s2 (some l) s3 hol
                      have h3t : s3.tokens = s2.tokens := pol.1
                      have h3i : s2.index ≤ s3.index ∧ s3.index ≤ s2.index + 1 := by
                        rcases hol2 with h3 | h3
                        · rw [h3]
                          exact ⟨le_refl _, Nat.le_succ _⟩
                        · rw [h3]
                          exact ⟨Nat.le_succ _, le_refl _⟩
                      obtain ⟨ha1, -⟩ := advance_ok ha
                      have h4i : s4.index = s3.index + 1 := by rw [ha1]
                      have h4t : s4.tokens = s3.tokens := by rw [ha1]
                      have hdexp := ihe s4 expr s5 hexp
                      have h5i : s4.index ≤ s5.index := by
                        have hx := parse_expression_index_mono fuel s4
                        rw [hexp] at hx
                        exact hx
                      obtain ⟨ha2s, -⟩ := advance_ok ha2
                      have h6i : s6.index = s5.index + 1 := by rw [ha2s]
                      rw [h4t, h3t, hk2] at hdexp
                      split at h
                      next =>
                        injection h with h1 h2
                        injection h1 with h1
                        injection h1 with h1
                        subst h1
                        subst h2
                        refine ⟨hk1, ?_, by omega⟩
                        exact EntryKeys.block (hdexp.mono (by omega))
                      next =>
                        injection h with h1 h2
                        injection h1 with h1
                        injection h1 with h1
                        subst h1
                        subst h2
                        refine ⟨hk1, ?_, by omega⟩
                        exact EntryKeys.block (hdexp.mono (by omega))
    have hblock : ∀ s e s1,
        parse_block (fuel + 1) s = (Except.ok (some e), s1) →
        s.tokens.get? s.index = some (Token.literal e.keyOf) ∧
          EntryKeys s.tokens s.index e ∧ s.index + 1 ≤ s1.index := by
      intro s e s1 h
      rw [parse_block_succ] at h
      have hb := backtrack_some (h := h)
      obtain ⟨h1, h2, h3⟩ := ihbb (set_mark s) e s1 hb
      exact ⟨h1, h2, h3⟩
    exact ⟨hexpr, hbody, hloop, hblock, hblockbody⟩

/-! ## The soft no-match signal never escapes parse_expression -/

/-- Whether a matcher result is the soft no-match signal (Python None). -/
def isSoftNone {α : Type} : Except PErr (Option α) → Bool
  | Except.ok none => true
  | _ => false

theorem parse_expression_loop_not_none (fuel : Nat) :
    ∀ (acc : List Entry) (s : ParserState),
      isSoftNone (parse_expression_loop fuel acc s).1 = false := by
  induction fuel with
  | zero => intro acc s; rfl
  | succ fuel ih =>
    intro acc s
    unfold parse_expression_loop
    split
    next => rfl
    next => rfl
    next =>
      split
      next => rfl
      next b s1 heq => exact ih _ _
      next s1 heq =>
        split
        next => rfl
        next p s2 heq2 => exact ih _ _
        next s2 heq2 =>
          split
          next => rfl
          next l s3 heq3 => exact ih _ _
          next => rfl

theorem parse_expression_body_not_none (fuel : Nat) (s : ParserState) :
    isSoftNone (parse_expression_body fuel s).1 = false := by
  cases fuel with
  | zero => rfl
  | succ fuel =>
    unfold parse_expression_body
    split
    next => rfl
    next =>
      split
      next => rfl
      next s1 h1 => exact parse_expression_loop_not_none fuel [] s1
    next => exact parse_expression_loop_not_none fuel [] s

theorem parse_expression_not_none (fuel : Nat) (s : ParserState) :
    isSoftNone (parse_expression fuel s).1 = false := by
  cases fuel with
  | zero => rfl
  | succ fuel =>
    rw [parse_expression_succ]
    unfold backtrack_if_none
    have hb := parse_expression_body_not_none fuel (set_mark s)
    cases hres : parse_expression_body fuel (set_mark s) with
    | mk r s1 =>
      rw [hres] at hb
      rcases r with e | o
      · rfl
      · rcases o with _ | a
        · simp [isSoftNone] at hb
        · rfl

/-! ## The constructor type check -/

theorem parserInit_characterization (stream : List PyVal) :
    parserInit stream =
      (if stream.all PyVal.isToken then Except.ok (tokensOf stream)
       else Except.error PErr.typeError) := by
  induction stream with
  | nil => simp [parserInit, tokensOf]
  | cons v rest ih =>
    cases v with
    | token t =>
      unfold parserInit
      rw [ih]
      by_cases hall : rest.all PyVal.isToken
      · simp [hall, tokensOf, PyVal.isToken]
      · simp [hall, PyVal.isToken]
    | nonToken n => simp [parserInit, PyVal.isToken]

theorem inBounds_initState (ts : List Token) : InBounds (initState ts) :=
  ⟨Nat.zero_le _, fun _ hm => nomatch hm⟩

/-! ## Claims -/

/-- Token stream of `foo: [1, 2, "three"]`. -/
def c1_tokens : List Token :=
  [Token.literal "foo", Token.value, Token.listStart, Token.literal "1",
   Token.comma, Token.literal "2", Token.comma, Token.quotedLiteral "three",
   Token.listEnd, Token.streamEnd]

/-- C1, code bug: the claim says the top-level parse of `foo: [1, 2, "three"]`
returns a Document with one List entry mapping foo to the three values, but
the code raises its fatal syntax error on this stream.  The cause is the
single shared mark: when the pair attempt fails, its wrapper rewinds the
cursor to the stale mark the nested value matcher left at index 2 instead of
to the entry index 0, so the list matcher is then tried in the middle of the
stream and fails too.  The second conjunct shows that the csv matcher alone
accepts the bracketed values, so the grammar documented in the source is the
intent and the rewind is the slip. -/
theorem c1_list_parse_raises_syntax_error :
    (parse 20 (initState c1_tokens)).1 = Except.error PErr.syntaxError ∧
      (parse_csv 20 { tokens := c1_tokens, index := 3, mark := none }).1
        = Except.ok (some ["1", "2", "three"]) :=
  ⟨rfl, rfl⟩

/-- Token stream of `a: { b: c` : a Key prefix whose Block remainder fails. -/
def c2_tokens : List Token :=
  [Token.literal "a", Token.value, Token.blockStart, Token.literal "b",
   Token.value, Token.literal "c", Token.streamEnd]

/-- C2, code bug: the claim says every wrapped matcher that returns the soft
no-match signal leaves the cursor exactly where the matcher was entered.  The
block matcher entered at cursor 0 on `a: { b: c` matches the Key production,
consumes the BlockStart, parses the inner expression, and then fails on the
missing BlockEnd; its wrapper rewinds to the current value of the single
shared mark, which the nested value matcher has meanwhile set to 5, so
control returns with the cursor at 5 rather than at the entry index 0. -/
theorem c2_block_no_match_cursor_not_restored :
    (initState c2_tokens).index = 0 ∧
      parse_block 20 (initState c2_tokens)
        = (Except.ok none, { tokens := c2_tokens, index := 5, mark := some 5 }) :=
  ⟨rfl, rfl⟩

/-- Token stream of `foo: { }` : a block with no name literal. -/
def c3_tokens : List Token :=
  [Token.literal "foo", Token.value, Token.blockStart, Token.blockEnd,
   Token.streamEnd]

/-- Token stream of `foo: baz { }` : the same block with a name literal. -/
def c3_named_tokens : List Token :=
  [Token.literal "foo", Token.value, Token.literal "baz", Token.blockStart,
   Token.blockEnd, Token.streamEnd]

/-- C3, code bug: the claim says a block whose name literal is absent parses
to a Block entry with no name field, the name being optional.  In the code
the local variable holding the name is only assigned inside the check for a
Literal token, and the final truthiness test reads it unconditionally, so
the parse of `foo: { }` raises UnboundLocalError instead of returning a
Document.  The second conjunct shows the named variant `foo: baz { }`
parses fine, confirming the unnamed path is the broken one. -/
theorem c3_unnamed_block_raises_unbound_local :
    (parse 20 (initState c3_tokens)).1 = Except.error PErr.unboundLocal ∧
      (parse 20 (initState c3_named_tokens)).1
        = Except.ok (some [Entry.block "foo" (some "baz") []]) :=
  ⟨rfl, rfl⟩

/-- Token stream of `foo: []`. -/
def c4_empty_tokens : List Token :=
  [Token.literal "foo", Token.value, Token.listStart, Token.listEnd,
   Token.streamEnd]

/-- Token stream of `foo: [1,]`. -/
def c4_trailing_tokens : List Token :=
  [Token.literal "foo", Token.value, Token.listStart, Token.literal "1",
   Token.comma, Token.listEnd, Token.streamEnd]

/-- C4: parsing `foo: []` and `foo: [1,]` both raise the fatal syntax error
and return no Document, and the csv matcher run at the position just after
the ListStart token rejects both forms with the soft no-match signal: it
demands at least one value and a value after every consumed comma. -/
theorem c4_empty_and_trailing_comma_lists_rejected :
    (parse 20 (initState c4_empty_tokens)).1 = Except.error PErr.syntaxError ∧
      (parse 20 (initState c4_trailing_tokens)).1 = Except.error PErr.syntaxError ∧
      (parse_csv 20 { tokens := c4_empty_tokens, index := 3, mark := none }).1
        = Except.ok none ∧
      (parse_csv 20 { tokens := c4_trailing_tokens, index := 3, mark := none }).1
        = Except.ok none :=
  ⟨rfl, rfl, rfl, rfl⟩

/-- Token stream of `foo: bar ;;`. -/
def c5_tokens : List Token :=
  [Token.literal "foo", Token.value, Token.literal "bar", Token.sqlEnd,
   Token.streamEnd]

/-- C5: parsing `foo: bar ;;` returns a Document with exactly one Pair entry
mapping foo to bar; the final cursor sits past the SqlEnd token, which was
consumed and does not appear in the value. -/
theorem c5_pair_with_sql_end :
    parse 20 (initState c5_tokens)
      = (Except.ok (some [Entry.pair "foo" "bar"]),
         { tokens := c5_tokens, index := 4, mark := some 2 }) :=
  rfl

/-- C6: constructing a Parser raises TypeError, before any parsing begins,
exactly when some element of the input sequence is not a Token instance,
and TypeError is the only error the constructor can raise, distinct from
the syntax error of parsing.  The Token type itself is modelled from the
spec because the token module is not among the given sources. -/
theorem c6_constructor_type_check (stream : List PyVal) :
    (parserInit stream = Except.error PErr.typeError ↔
        ∃ v ∈ stream, v.isToken = false) ∧
      (∀ e, parserInit stream = Except.error e → e = PErr.typeError) ∧
      PErr.typeError ≠ PErr.syntaxError := by
  have h := parserInit_characterization stream
  refine and_assoc.mp ⟨?_, fun hc => nomatch hc⟩
  by_cases hall : stream.all PyVal.isToken
  · rw [h, if_pos hall]
    rw [List.all_eq_true] at hall
    refine ⟨⟨fun hc => absurd hc (by simp), ?_⟩, fun e he => absurd he (by simp)⟩
    rintro ⟨v, hv, hfv⟩
    have hvt := hall v hv
    rw [hfv] at hvt
    exact absurd hvt (by simp)
  · rw [h, if_neg hall]
    rw [List.all_eq_true] at hall
    push_neg at hall
    obtain ⟨v, hv, hne⟩ := hall
    refine ⟨⟨fun _ => ⟨v, hv, by simpa using hne⟩, fun _ => rfl⟩, ?_⟩
    intro e he
    exact (Except.error.inj he).symm

/-- Witness for C6 at a concrete two-element sequence with one bad element. -/
theorem c6_constructor_type_check_witness :
    (parserInit [PyVal.token Token.streamEnd, PyVal.nonToken "str"]
        = Except.error PErr.typeError ↔
      ∃ v ∈ [PyVal.token Token.streamEnd, PyVal.nonToken "str"],
        v.isToken = false) ∧
      (∀ e, parserInit [PyVal.token Token.streamEnd, PyVal.nonToken "str"]
          = Except.error e → e = PErr.typeError) ∧
      PErr.typeError ≠ PErr.syntaxError :=
  c6_constructor_type_check [PyVal.token Token.streamEnd, PyVal.nonToken "str"]

/-- C7: whenever the top-level parse returns a Document, its entries carry
keys that appear as Literal tokens of the stream at strictly increasing
positions, in the same order, and the same holds inside every nested block
document; repeated keys stay as repeated entries because each entry is tied
to its own key occurrence. -/
theorem c7_order_preservation (ts : List Token) (fuel : Nat) (es : List Entry)
    (s1 : ParserState)
    (h : parse fuel (initState ts) = (Except.ok (some es), s1)) :
    DocKeys ts 0 es :=
  (keys_mutual fuel).1 (initState ts) es s1 h

/-- Token stream of `a: b c: "d"` : two pairs in source order. -/
def c7_tokens : List Token :=
  [Token.literal "a", Token.value, Token.literal "b", Token.literal "c",
   Token.value, Token.quotedLiteral "d", Token.streamEnd]

/-- Witness for C7: the parse of `a: b c: "d"` succeeds and the resulting
two pair entries are ordered along the stream. -/
theorem c7_order_preservation_witness :
    DocKeys c7_tokens 0 [Entry.pair "a" "b", Entry.pair "c" "d"] :=
  c7_order_preservation c7_tokens 20 [Entry.pair "a" "b", Entry.pair "c" "d"]
    { tokens := c7_tokens, index := 6, mark := some 5 } rfl

/-- C8: the input consisting solely of StreamStart followed by StreamEnd
parses to an empty Document without error. -/
theorem c8_stream_start_end_empty_document :
    (parse 20 (initState [Token.streamStart, Token.streamEnd])).1
      = Except.ok (some []) :=
  rfl

/-- C9: for every input token sequence and any fuel, the cursor of the state
in which the top-level parse returns, whether it succeeds or raises, is at
most the stream length.  The helper lemmas show the invariant holds through
every intermediate operation: peek, advance, consume and check raise
IndexError rather than read or move out of bounds, set_mark stores an
in-bounds index, and jump_to_mark restores one. -/
theorem c9_cursor_in_bounds (ts : List Token) (fuel : Nat) :
    (parse fuel (initState ts)).2.index ≤ ts.length := by
  have hp := (pres_mutual fuel).1 (initState ts)
  have hib := hp.2.1 (inBounds_initState ts)
  have ht : (parse_expression fuel (initState ts)).2.tokens = ts := hp.1
  have hle := hib.1
  rw [ht] at hle
  unfold parse
  exact hle

/-- C10: parse_expression never returns the soft no-match signal: for every
fuel and state its result is a list of entries or a raised error, so the
branch of parse_block that handles a no-match from the recursive expression
parse is unreachable. -/
theorem c10_expression_never_returns_none (fuel : Nat) (s : ParserState) :
    isSoftNone (parse_expression fuel s).1 = false :=
  parse_expression_not_none fuel s

end Lkml
